import Mathlib

/-!
Verification of the property-parsing core of `editorconfig-core-rs`
(`src/property.rs`): the `Property` contract (`key` / `parse_value`) and the
catalog of eight concrete property variants. Each Rust variant is embedded as
a Lean namespace holding its `key` constant and its `parse_value` function.
Rust's `str::parse::<usize>()` and `str::parse::<bool>()` are embedded as
`parseUsize` and `parseBool`, following `core::num::from_str_radix` (radix 10,
unsigned: an optional leading `+`, at least one ASCII digit, leading zeros
allowed, out-of-range rejected) and `core::str::FromStr for bool` (exactly
`"true"` or `"false"`). `usize` is modelled at 64 bits.
-/

namespace EditorConfig

/-- The largest value of Rust `usize`, modelled at 64 bits. -/
def usizeMax : Nat := 2 ^ 64 - 1

/-- Numeric value of an ASCII digit character, as computed by Rust
`char::to_digit(10)` on a digit: code point minus 48. -/
def digitVal (c : Char) : Nat := c.toNat - Char.toNat (Char.ofNat 48)

/-- Mathematical base-10 value of a digit sequence (most significant first). -/
def digitsVal (l : List Char) : Nat :=
l.foldl (fun a c => a * 10 + digitVal c) 0

/-- The digit loop of `core::num::from_str_radix` at radix 10 for an unsigned
type: consume ASCII digits, accumulating `acc * 10 + digit`, failing on any
non-digit character and on any intermediate value exceeding `usizeMax`
(Rust's `checked_mul` / `checked_add` overflow rejection). -/
def parseUsizeDigits : List Char → Nat → Option Nat
| [], acc => some acc
| c :: cs, acc =>
  if c.isDigit then
    if acc * 10 + digitVal c ≤ usizeMax then
      parseUsizeDigits cs (acc * 10 + digitVal c)
    else none
  else none

/-- `core::num::from_str_radix` on a character sequence: empty input fails; a
single leading `'+'` is stripped (for unsigned types a leading `'-'` is not a
sign and fails as an invalid digit); at least one digit must remain; then the
digit loop runs with accumulator `0`. -/
def parseUsizeList : List Char → Option Nat
| [] => none
| c :: rest =>
  if c = Char.ofNat 43 then
    match rest with
    | [] => none
    | _ :: _ => parseUsizeDigits rest 0
  else
    parseUsizeDigits (c :: rest) 0

/-- Embeds Rust `str::parse::<usize>()` on a string's characters. -/
def parseUsize (s : String) : Option Nat :=
parseUsizeList s.data

/-- Embeds Rust `str::parse::<bool>()`: exactly `"true"` or `"false"`. -/
def parseBool (s : String) : Option Bool :=
if s = "true" then some true
else if s = "false" then some false
else none

/-- The `indent_style` property enum (`property_enum!` expansion). -/
inductive IndentStyle
| Tabs
| Spaces
deriving DecidableEq, Repr

namespace IndentStyle

def key : String := "indent_style"

/-- Rust `match raw { "tab" => Some(Tabs), "space" => Some(Spaces), _ => None }`. -/
def parse_value (raw : String) : Option IndentStyle :=
if raw = "tab" then some IndentStyle.Tabs
else if raw = "space" then some IndentStyle.Spaces
else none

end IndentStyle

/-- The `end_of_line` property enum (`property_enum!` expansion). -/
inductive EndOfLine
| Lf
| CrLf
| Cr
deriving DecidableEq, Repr

namespace EndOfLine

def key : String := "end_of_line"

/-- Rust `match raw { "lf" => Some(Lf), "crlf" => Some(CrLf), "cr" => Some(Cr), _ => None }`. -/
def parse_value (raw : String) : Option EndOfLine :=
if raw = "lf" then some EndOfLine.Lf
else if raw = "crlf" then some EndOfLine.CrLf
else if raw = "cr" then some EndOfLine.Cr
else none

end EndOfLine

/-- The `charset` property enum (`property_enum!` expansion). -/
inductive Charset
| Utf8
| Latin1
| Utf16Le
| Utf16Be
| Utf8Bom
deriving DecidableEq, Repr

namespace Charset

def key : String := "charset"

/-- Rust match over the five charset literals. -/
def parse_value (raw : String) : Option Charset :=
if raw = "utf-8" then some Charset.Utf8
else if raw = "latin1" then some Charset.Latin1
else if raw = "utf-16le" then some Charset.Utf16Le
else if raw = "utf-16be" then some Charset.Utf16Be
else if raw = "utf-8-bom" then some Charset.Utf8Bom
else none

end Charset

namespace IndentSize

def key : String := "indent_size"

/-- `property_basic_option!{IndentSize, "indent_size", usize, "tab"}`:
sentinel `"tab"` maps to explicit absence, otherwise `raw.parse::<usize>().ok().map(Some)`. -/
def parse_value (raw : String) : Option (Option Nat) :=
if raw = "tab" then some none
else (parseUsize raw).map some

end IndentSize

namespace TabWidth

def key : String := "tab_width"

/-- `property_basic!{TabWidth, "tab_width", usize}`: `raw.parse::<usize>().ok()`. -/
def parse_value (raw : String) : Option Nat :=
parseUsize raw

end TabWidth

namespace TrimTrailingWs

def key : String := "trim_trailing_whitespace"

/-- `property_basic!{TrimTrailingWs, "trim_trailing_whitespace", bool}`. -/
def parse_value (raw : String) : Option Bool :=
parseBool raw

end TrimTrailingWs

namespace FinalNewline

def key : String := "insert_final_newline"

/-- `property_basic!{FinalNewline, "insert_final_newline", bool}`. -/
def parse_value (raw : String) : Option Bool :=
parseBool raw

end FinalNewline

namespace MaxLineLen

def key : String := "max_line_length"

/-- `property_basic_option!{MaxLineLen, "max_line_length", usize, "off"}`. -/
def parse_value (raw : String) : Option (Option Nat) :=
if raw = "off" then some none
else (parseUsize raw).map some

end MaxLineLen

/-! Helper lemmas about the embedded `usize` parser. -/

lemma foldl_digits_ge (l : List Char) :
    ∀ a : Nat, a ≤ l.foldl (fun x c => x * 10 + digitVal c) a := by
  induction l with
  | nil => intro a; simp
  | cons c cs ih =>
    intro a
    have h1 : a ≤ a * 10 + digitVal c := by omega
    simpa only [List.foldl_cons] using le_trans h1 (ih (a * 10 + digitVal c))

lemma parseUsizeDigits_sound (l : List Char) :
    ∀ acc n : Nat, parseUsizeDigits l acc = some n →
      n = l.foldl (fun a c => a * 10 + digitVal c) acc ∧ ∀ c ∈ l, c.isDigit := by
  induction l with
  | nil =>
    intro acc n h
    simp only [parseUsizeDigits, Option.some.injEq] at h
    simpa using h.symm
  | cons c cs ih =>
    intro acc n h
    simp only [parseUsizeDigits] at h
    split_ifs at h with hd hb
    obtain ⟨h1, h2⟩ := ih _ _ h
    refine ⟨by simpa only [List.foldl_cons] using h1, ?_⟩
    intro x hx
    rcases List.mem_cons.mp hx with rfl | hx
    · exact hd
    · exact h2 x hx

lemma parseUsizeDigits_bound (l : List Char) :
    ∀ acc n : Nat, acc ≤ usizeMax → parseUsizeDigits l acc = some n →
      n ≤ usizeMax := by
  induction l with
  | nil =>
    intro acc n ha h
    simp only [parseUsizeDigits, Option.some.injEq] at h
    omega
  | cons c cs ih =>
    intro acc n ha h
    simp only [parseUsizeDigits] at h
    split_ifs at h with hd hb
    exact ih _ _ hb h

lemma parseUsizeDigits_complete (l : List Char) :
    ∀ acc : Nat, (∀ c ∈ l, c.isDigit) →
      l.foldl (fun a c => a * 10 + digitVal c) acc ≤ usizeMax →
      parseUsizeDigits l acc =
        some (l.foldl (fun a c => a * 10 + digitVal c) acc) := by
  induction l with
  | nil => intro acc _ _; simp [parseUsizeDigits]
  | cons c cs ih =>
    intro acc hd hb
    have hdc : c.isDigit := hd c (List.mem_cons_self c cs)
    have hb' : cs.foldl (fun a c => a * 10 + digitVal c)
        (acc * 10 + digitVal c) ≤ usizeMax := by
      simpa only [List.foldl_cons] using hb
    have hstep : acc * 10 + digitVal c ≤ usizeMax :=
      le_trans (foldl_digits_ge cs (acc * 10 + digitVal c)) hb'
    simp only [parseUsizeDigits, if_pos hdc, if_pos hstep, List.foldl_cons]
    exact ih (acc * 10 + digitVal c)
      (fun x hx => hd x (List.mem_cons_of_mem c hx)) hb'

lemma plus_not_digit : ¬ (Char.ofNat 43).isDigit := by decide

lemma parseUsizeList_all_digits (l : List Char) (hne : l ≠ [])
    (hd : ∀ c ∈ l, c.isDigit) : parseUsizeList l = parseUsizeDigits l 0 := by
  cases l with
  | nil => exact absurd rfl hne
  | cons c cs =>
    have hc : c ≠ Char.ofNat 43 := by
      intro hc
      exact plus_not_digit (hc ▸ hd c (List.mem_cons_self c cs))
    simp [parseUsizeList, hc]

lemma parseUsizeList_some_shape (l : List Char) (n : Nat)
    (h : parseUsizeList l = some n) :
    ∃ d, (l = d ∨ l = Char.ofNat 43 :: d) ∧ d ≠ [] ∧ ∀ c ∈ d, c.isDigit := by
  cases l with
  | nil => simp [parseUsizeList] at h
  | cons c cs =>
    simp only [parseUsizeList] at h
    split_ifs at h with hc
    · cases cs with
      | nil => simp at h
      | cons c2 cs2 =>
        obtain ⟨-, hdig⟩ := parseUsizeDigits_sound _ _ _ h
        exact ⟨c2 :: cs2, Or.inr (by rw [hc]), by simp, hdig⟩
    · obtain ⟨-, hdig⟩ := parseUsizeDigits_sound _ _ _ h
      exact ⟨c :: cs, Or.inl rfl, by simp, hdig⟩

/-- On a nonempty all-digit character list, `parseUsize` succeeds with the
mathematical base-10 value whenever that value is representable. -/
lemma parseUsize_all_digits (l : List Char) (hne : l ≠ [])
    (hd : ∀ c ∈ l, c.isDigit) (hb : digitsVal l ≤ usizeMax) :
    parseUsize (String.mk l) = some (digitsVal l) := by
  show parseUsizeList l = some (digitsVal l)
  rw [parseUsizeList_all_digits l hne hd]
  exact parseUsizeDigits_complete l 0 hd hb

/-- On a nonempty all-digit character list whose value is out of range,
`parseUsize` fails. -/
lemma parseUsize_overflow (l : List Char) (hd : ∀ c ∈ l, c.isDigit)
    (hb : usizeMax < digitsVal l) : parseUsize (String.mk l) = none := by
  have hne : l ≠ [] := by
    intro hl
    rw [hl] at hb
    simp [digitsVal] at hb
  show parseUsizeList l = none
  rw [parseUsizeList_all_digits l hne hd]
  cases h : parseUsizeDigits l 0 with
  | none => rfl
  | some n =>
    obtain ⟨h1, -⟩ := parseUsizeDigits_sound _ _ _ h
    have h2 := parseUsizeDigits_bound l 0 n (by simp [usizeMax]) h
    rw [h1] at h2
    exact absurd h2 (by simpa [digitsVal] using hb)

/-! Claim theorems. -/

/-- C1: each enum variant's `parse_value` returns exactly the alternative
paired with the raw string in its literal table, and `none` for every string
outside the table; matching is exact and case-sensitive, so `"Tab"` and
`"lfs"` fail. -/
theorem C1_enum_literal_tables :
    (∀ raw : String,
      (IndentStyle.parse_value raw = some IndentStyle.Tabs ↔ raw = "tab") ∧
      (IndentStyle.parse_value raw = some IndentStyle.Spaces ↔ raw = "space") ∧
      (IndentStyle.parse_value raw = none ↔ raw ≠ "tab" ∧ raw ≠ "space")) ∧
    (∀ raw : String,
      (EndOfLine.parse_value raw = some EndOfLine.Lf ↔ raw = "lf") ∧
      (EndOfLine.parse_value raw = some EndOfLine.CrLf ↔ raw = "crlf") ∧
      (EndOfLine.parse_value raw = some EndOfLine.Cr ↔ raw = "cr") ∧
      (EndOfLine.parse_value raw = none ↔
        raw ≠ "lf" ∧ raw ≠ "crlf" ∧ raw ≠ "cr")) ∧
    (∀ raw : String,
      (Charset.parse_value raw = some Charset.Utf8 ↔ raw = "utf-8") ∧
      (Charset.parse_value raw = some Charset.Latin1 ↔ raw = "latin1") ∧
      (Charset.parse_value raw = some Charset.Utf16Le ↔ raw = "utf-16le") ∧
      (Charset.parse_value raw = some Charset.Utf16Be ↔ raw = "utf-16be") ∧
      (Charset.parse_value raw = some Charset.Utf8Bom ↔ raw = "utf-8-bom") ∧
      (Charset.parse_value raw = none ↔ raw ≠ "utf-8" ∧ raw ≠ "latin1" ∧
        raw ≠ "utf-16le" ∧ raw ≠ "utf-16be" ∧ raw ≠ "utf-8-bom")) ∧
    IndentStyle.parse_value "Tab" = none ∧
    EndOfLine.parse_value "lfs" = none := by
  refine ⟨fun raw => ?_, fun raw => ?_, fun raw => ?_, by decide, by decide⟩
  · unfold IndentStyle.parse_value
    split_ifs <;> simp_all
  · unfold EndOfLine.parse_value
    split_ifs <;> simp_all
  · unfold Charset.parse_value
    split_ifs <;> simp_all

/-- C2: the optional-scalar variants test the sentinel first (`"tab"` for
IndentSize, `"off"` for MaxLineLen, mapping to explicit absence), otherwise
defer to the strict integer parse wrapped in presence; failure of both gives
`none`; the sentinel comparison is exact, so `"Off"` fails. -/
theorem C2_optional_sentinel_order :
    IndentSize.parse_value "tab" = some none ∧
    MaxLineLen.parse_value "off" = some none ∧
    MaxLineLen.parse_value "Off" = none ∧
    (∀ (raw : String) (n : Nat), raw ≠ "tab" → parseUsize raw = some n →
      IndentSize.parse_value raw = some (some n)) ∧
    (∀ raw : String, raw ≠ "tab" → parseUsize raw = none →
      IndentSize.parse_value raw = none) ∧
    (∀ (raw : String) (n : Nat), raw ≠ "off" → parseUsize raw = some n →
      MaxLineLen.parse_value raw = some (some n)) ∧
    (∀ raw : String, raw ≠ "off" → parseUsize raw = none →
      MaxLineLen.parse_value raw = none) := by
  refine ⟨by decide, by decide, by decide, ?_, ?_, ?_, ?_⟩
  · intro raw n hne hp
    unfold IndentSize.parse_value
    rw [if_neg hne, hp]
    rfl
  · intro raw hne hp
    unfold IndentSize.parse_value
    rw [if_neg hne, hp]
    rfl
  · intro raw n hne hp
    unfold MaxLineLen.parse_value
    rw [if_neg hne, hp]
    rfl
  · intro raw hne hp
    unfold MaxLineLen.parse_value
    rw [if_neg hne, hp]
    rfl

/-- C2 witness: the integer branch at the concrete input `"4"`. -/
theorem C2_optional_sentinel_order_witness :
    IndentSize.parse_value "4" = some (some 4) :=
  C2_optional_sentinel_order.2.2.2.1 "4" 4 (by decide) (by decide)

/-- C3 counterexample: the claim says any input with a leading `+` or with
leading zeros beyond `"0"` is rejected, but Rust `str::parse::<usize>()`
accepts both, so `TabWidth.parse_value` succeeds on `"+4"` and `"007"`. -/
theorem C3_counterexample :
    TabWidth.parse_value "+4" = some 4 ∧ TabWidth.parse_value "007" = some 7 := by
  decide

/-- C3 amended: `TabWidth.parse_value` (the integer branch shared with
IndentSize and MaxLineLen) succeeds exactly on an optional single leading
`'+'` followed by one or more ASCII digits with representable value; digit
separators, whitespace anywhere, and empty input fail, while a leading `'+'`
and leading zeros are accepted. -/
theorem C3_strict_integer_grammar :
    TabWidth.parse_value "1_000" = none ∧
    TabWidth.parse_value " 4" = none ∧
    TabWidth.parse_value "4 " = none ∧
    TabWidth.parse_value "" = none ∧
    TabWidth.parse_value "+4" = some 4 ∧
    TabWidth.parse_value "007" = some 7 ∧
    (∀ (s : String) (n : Nat), TabWidth.parse_value s = some n →
      ∃ d, (s.data = d ∨ s.data = Char.ofNat 43 :: d) ∧ d ≠ [] ∧
        ∀ c ∈ d, c.isDigit) ∧
    (∀ l : List Char, l ≠ [] → (∀ c ∈ l, c.isDigit) → digitsVal l ≤ usizeMax →
      TabWidth.parse_value (String.mk l) = some (digitsVal l)) := by
  refine ⟨by decide, by decide, by decide, by decide, by decide, by decide,
    ?_, ?_⟩
  · intro s n h
    exact parseUsizeList_some_shape s.data n h
  · intro l hne hd hb
    exact parseUsize_all_digits l hne hd hb

/-- C3 witness: the amended grammar at the concrete digit list `['4']`. -/
theorem C3_strict_integer_grammar_witness :
    TabWidth.parse_value (String.mk [Char.ofNat 52]) =
      some (digitsVal [Char.ofNat 52]) :=
  C3_strict_integer_grammar.2.2.2.2.2.2.2 [Char.ofNat 52]
    (by decide) (by decide) (by decide)

/-- C4: `IndentSize.parse_value "0"` is explicit presence of `0` — zero is
accepted, per the documented divergence from the wiki gloss. -/
theorem C4_indent_size_zero :
    IndentSize.parse_value "0" = some (some 0) := by
  decide

/-- C5: the boolean variants accept exactly `"true"` and `"false"`,
case-sensitively, and fail on everything else including `"True"`. -/
theorem C5_bool_strict :
    (∀ raw : String,
      (TrimTrailingWs.parse_value raw = some true ↔ raw = "true") ∧
      (TrimTrailingWs.parse_value raw = some false ↔ raw = "false") ∧
      (TrimTrailingWs.parse_value raw = none ↔
        raw ≠ "true" ∧ raw ≠ "false")) ∧
    (∀ raw : String,
      (FinalNewline.parse_value raw = some true ↔ raw = "true") ∧
      (FinalNewline.parse_value raw = some false ↔ raw = "false") ∧
      (FinalNewline.parse_value raw = none ↔
        raw ≠ "true" ∧ raw ≠ "false")) ∧
    TrimTrailingWs.parse_value "True" = none := by
  refine ⟨fun raw => ?_, fun raw => ?_, by decide⟩
  · unfold TrimTrailingWs.parse_value parseBool
    split_ifs <;> simp_all
  · unfold FinalNewline.parse_value parseBool
    split_ifs <;> simp_all

/-- C6: TabWidth accepts `"4"` and `"0"` with their values and rejects
`"-1"`, `"4.0"`, `" 4"` and the empty string. -/
theorem C6_tab_width_examples :
    TabWidth.parse_value "4" = some 4 ∧
    TabWidth.parse_value "0" = some 0 ∧
    TabWidth.parse_value "-1" = none ∧
    TabWidth.parse_value "4.0" = none ∧
    TabWidth.parse_value " 4" = none ∧
    TabWidth.parse_value "" = none := by
  decide

/-- C7: every variant's `key` is the canonical lowercase underscore-separated
EditorConfig property name. -/
theorem C7_canonical_keys :
    IndentStyle.key = "indent_style" ∧
    IndentSize.key = "indent_size" ∧
    TabWidth.key = "tab_width" ∧
    EndOfLine.key = "end_of_line" ∧
    Charset.key = "charset" ∧
    TrimTrailingWs.key = "trim_trailing_whitespace" ∧
    FinalNewline.key = "insert_final_newline" ∧
    MaxLineLen.key = "max_line_length" :=
  ⟨rfl, rfl, rfl, rfl, rfl, rfl, rfl, rfl⟩

/-- C8: for every variant `parse_value` is a total function into `Option`
whose result is `some` exactly when the raw string matches an accepted
literal or sentinel or satisfies the primitive's strict parse grammar —
`none` is the single failure mode. -/
theorem C8_single_failure_mode :
    (∀ raw : String, (IndentStyle.parse_value raw).isSome ↔
      (raw = "tab" ∨ raw = "space")) ∧
    (∀ raw : String, (EndOfLine.parse_value raw).isSome ↔
      (raw = "lf" ∨ raw = "crlf" ∨ raw = "cr")) ∧
    (∀ raw : String, (Charset.parse_value raw).isSome ↔
      (raw = "utf-8" ∨ raw = "latin1" ∨ raw = "utf-16le" ∨
       raw = "utf-16be" ∨ raw = "utf-8-bom")) ∧
    (∀ raw : String, (TabWidth.parse_value raw).isSome ↔
      (parseUsize raw).isSome) ∧
    (∀ raw : String, (IndentSize.parse_value raw).isSome ↔
      (raw = "tab" ∨ (parseUsize raw).isSome)) ∧
    (∀ raw : String, (MaxLineLen.parse_value raw).isSome ↔
      (raw = "off" ∨ (parseUsize raw).isSome)) ∧
    (∀ raw : String, (TrimTrailingWs.parse_value raw).isSome ↔
      (raw = "true" ∨ raw = "false")) ∧
    (∀ raw : String, (FinalNewline.parse_value raw).isSome ↔
      (raw = "true" ∨ raw = "false")) := by
  refine ⟨fun raw => ?_, fun raw => ?_, fun raw => ?_, fun raw => Iff.rfl,
    fun raw => ?_, fun raw => ?_, fun raw => ?_, fun raw => ?_⟩
  · unfold IndentStyle.parse_value
    split_ifs <;> simp_all
  · unfold EndOfLine.parse_value
    split_ifs <;> simp_all
  · unfold Charset.parse_value
    split_ifs <;> simp_all
  · unfold IndentSize.parse_value
    split_ifs with h <;> cases hp : parseUsize raw <;> simp_all
  · unfold MaxLineLen.parse_value
    split_ifs with h <;> cases hp : parseUsize raw <;> simp_all
  · unfold TrimTrailingWs.parse_value parseBool
    split_ifs <;> simp_all
  · unfold FinalNewline.parse_value parseBool
    split_ifs <;> simp_all

/-- C9: an all-digit input whose value exceeds `usizeMax` is rejected by
TabWidth, IndentSize and MaxLineLen — no wrapping, no panic. -/
theorem C9_out_of_range_rejected :
    ∀ l : List Char, (∀ c ∈ l, c.isDigit) → usizeMax < digitsVal l →
      TabWidth.parse_value (String.mk l) = none ∧
      IndentSize.parse_value (String.mk l) = none ∧
      MaxLineLen.parse_value (String.mk l) = none := by
  intro l hd hb
  have hp : parseUsize (String.mk l) = none := parseUsize_overflow l hd hb
  refine ⟨hp, ?_, ?_⟩
  · have hne : String.mk l ≠ "tab" := by
      intro h
      have hl : l = ("tab" : String).data := congrArg String.data h
      have ht : Char.ofNat 116 ∈ l := by rw [hl]; decide
      exact absurd (hd _ ht) (by decide)
    unfold IndentSize.parse_value
    rw [if_neg hne, hp]
    rfl
  · have hne : String.mk l ≠ "off" := by
      intro h
      have hl : l = ("off" : String).data := congrArg String.data h
      have ht : Char.ofNat 111 ∈ l := by rw [hl]; decide
      exact absurd (hd _ ht) (by decide)
    unfold MaxLineLen.parse_value
    rw [if_neg hne, hp]
    rfl

/-- C9 witness: `2 ^ 64`, one past `usizeMax`, written in decimal. -/
theorem C9_out_of_range_rejected_witness :
    TabWidth.parse_value (String.mk ("18446744073709551616" : String).data) =
      none :=
  (C9_out_of_range_rejected ("18446744073709551616" : String).data
    (by decide) (by decide)).1

/-- C10: the eight `key` constants are pairwise distinct, so each lookup key
selects at most one property variant. -/
theorem C10_keys_pairwise_distinct :
    List.Nodup [IndentStyle.key, IndentSize.key, TabWidth.key, EndOfLine.key,
      Charset.key, TrimTrailingWs.key, FinalNewline.key, MaxLineLen.key] := by
  decide

end EditorConfig
